import Mathlib

/-!
Shallow embedding of the clapcounter program (src/src/main.rs).

The program has two cooperating parts that share one mutex-guarded state:

* the Loudness Estimator (`process_audio`): called once per delivered audio
  block, it computes a loudness value (decibel-like, 20 * log10 of the rms)
  and folds it into a rolling baseline average;
* the Burst Classifier (the control loop in `run` together with the
  `AppState` methods `calibrate`, `detect_peak`, `reset_peak`): a fixed-rate
  loop that performs the settle-delay gate, the calibration state machine,
  the deadline check, peak detection with debounce, and hard/soft
  classification of registered bursts.

Modelling decisions:

* Machine `f32` arithmetic of finite values is modelled exactly with `Rat`.
* The estimator state arithmetic also involves the IEEE special values
  negative infinity (silent block) and NaN (rms of an empty block), so the
  values flowing through `process_audio` are modelled by the inductive type
  `F` below with IEEE-style addition, multiplication and division rules for
  the cases that can occur (there is no positive infinity anywhere in the
  program, so `F` does not carry one).
* The loudness of a block, `20 * log10 rms`, is an irrational real; it is
  modelled over `EReal` (bottom is the IEEE negative infinity) in
  `blockLoudness`.  The classifier claims quantify over the loudness and
  baseline values directly, so the classifier model uses `Rat` fields.
* `Instant` and `Duration` are modelled as rational numbers of seconds;
  `Instant::duration_since` is subtraction and `Duration::checked_sub`
  returns `none` exactly when the subtrahend is larger.
-/

/-- Constant ACTIVE_DELAY from the source: one second settle delay. -/
def ACTIVE_DELAY : ℚ := 1

/-- Constant CALIBRATION_COMPLETE_DELAY from the source: two second quiet period. -/
def CALIBRATION_COMPLETE_DELAY : ℚ := 2

/-- Constant BASELINE_WINDOW from the source. -/
def BASELINE_WINDOW : ℕ := 50

/-- Constant PEAK_THRESHOLD from the source. -/
def PEAK_THRESHOLD : ℚ := 15

/-- Constant RESET_THRESHOLD from the source. -/
def RESET_THRESHOLD : ℚ := 4

/-- Constant RESET_DISTANCE from the source. -/
def RESET_DISTANCE : ℤ := 8

/-- Constant CALIBRATION_TOLERANCE from the source. -/
def CALIBRATION_TOLERANCE : ℚ := 9 / 10

/-- An `f32` value as it can occur in the estimator state: NaN, negative
infinity, or a finite value (modelled exactly as a rational).  Positive
infinity cannot occur in this program and is not represented. -/
inductive F where
  | nan : F
  | negInf : F
  | fin : ℚ → F
deriving DecidableEq

/-- IEEE addition restricted to `F` (no positive infinity can occur, so
there is no infinity-minus-infinity case): NaN is absorbing, negative
infinity plus anything non-NaN is negative infinity. -/
def fadd : F → F → F
  | F.nan, _ => F.nan
  | _, F.nan => F.nan
  | F.negInf, _ => F.negInf
  | _, F.negInf => F.negInf
  | F.fin a, F.fin b => F.fin (a + b)

/-- IEEE multiplication of an `F` value by a natural constant (the source
multiplies the baseline by `BASELINE_WINDOW - 1 = 49`): NaN is absorbing,
negative infinity times a positive constant is negative infinity (times
zero would be NaN; the program only multiplies by 49). -/
def fmulN : F → ℕ → F
  | F.nan, _ => F.nan
  | F.negInf, c => if c = 0 then F.nan else F.negInf
  | F.fin a, c => F.fin (a * c)

/-- IEEE division of an `F` value by a natural constant (the source divides
by `baseline_samples ≥ 1` and by `BASELINE_WINDOW = 50`): NaN is absorbing,
negative infinity divided by a positive constant is negative infinity.
Division by zero cannot occur at any call site; it is mapped to NaN. -/
def fdivN : F → ℕ → F
  | F.nan, _ => F.nan
  | F.negInf, c => if c = 0 then F.nan else F.negInf
  | F.fin a, c => if c = 0 then F.nan else F.fin (a / c)

/-- The fields of the shared `AppState` that `process_audio` reads and
writes: the current loudness, the rolling baseline, and the warm-up
window bookkeeping (count of folded samples and their running sum). -/
structure EstState where
  current_db : F
  baseline : F
  baseline_samples : ℕ
  baseline_sum : F
deriving DecidableEq

/-- The estimator-side fields of `AppState::new`: everything starts at
zero, exactly as in the source. -/
def estInit : EstState :=
  { current_db := F.fin 0, baseline := F.fin 0, baseline_samples := 0,
    baseline_sum := F.fin 0 }

/-- The state update performed by `process_audio` once the loudness `db` of
the incoming block has been computed: store the loudness; if the baseline
compares equal to `0.0`, reseed it to `db`; then either fold `db` into the
warm-up arithmetic mean (fewer than `BASELINE_WINDOW` samples folded) or
apply the exponentially weighted moving-average update. -/
def ingestDb (st : EstState) (db : F) : EstState :=
  let st1 := { st with current_db := db }
  let st2 := if st1.baseline = F.fin 0 then { st1 with baseline := db } else st1
  if st2.baseline_samples < BASELINE_WINDOW then
    { st2 with
      baseline_samples := st2.baseline_samples + 1,
      baseline_sum := fadd st2.baseline_sum db,
      baseline := fdivN (fadd st2.baseline_sum db) (st2.baseline_samples + 1) }
  else
    { st2 with
      baseline := fdivN (fadd (fmulN st2.baseline (BASELINE_WINDOW - 1)) db)
        BASELINE_WINDOW }

/-- Folding a sequence of per-block loudness values into the estimator
state, one `process_audio` call per block. -/
def estRun (st : EstState) (dbs : List F) : EstState :=
  dbs.foldl ingestDb st

/-- The sum of squares of the samples of a block, as computed by
`process_audio` (samples converted to normalized floating point are
modelled as rationals). -/
def sumSquares (data : List ℚ) : ℚ :=
  (data.map (fun s => s * s)).sum

/-- The mean square `sum_squares / data.len()` of a block; `none` models
the NaN produced by the `0.0 / 0.0` division on an empty block. -/
def meanSquares? (data : List ℚ) : Option ℚ :=
  if data.length = 0 then none else some (sumSquares data / data.length)

/-- The root mean square of a block; `none` models NaN (the square root of
NaN is NaN). -/
noncomputable def rmsOf (data : List ℚ) : Option ℝ :=
  Option.map (fun q : ℚ => Real.sqrt ((q : ℚ) : ℝ)) (meanSquares? data)

/-- The loudness `20.0 * rms.log10()` stored by `process_audio`, over the
extended reals: the source stores `f32::NEG_INFINITY` (bottom) unless
`rms > 0.0`; a NaN rms fails that comparison, so an empty block also
stores negative infinity. -/
noncomputable def blockLoudness (data : List ℚ) : EReal :=
  match rmsOf data with
  | none => (⊥ : EReal)
  | some r => if 0 < r then ((20 * Real.logb 10 r : ℝ) : EReal) else (⊥ : EReal)

/-- The calibration state machine of the source, with the instant of the
last observed maximum (in seconds) embedded in the started variant. -/
inductive CalibrationStatus where
  | waiting : CalibrationStatus
  | started : ℚ → CalibrationStatus
  | complete : CalibrationStatus
deriving DecidableEq

/-- The fields of the shared `AppState` that the control loop reads and
writes.  Loudness and baseline are the values the estimator most recently
stored; the classifier claims quantify over them, so they are carried as
rationals here.  Instants are rational seconds. -/
structure AppState where
  current_db : ℚ
  baseline : ℚ
  last_peak_distance : ℤ
  started : ℚ
  last_calibrate_max : ℚ
  calibration : CalibrationStatus
  timer_started : ℚ
  time_limit : ℚ
  hard_claps : ℕ
  soft_claps : ℕ
deriving DecidableEq

/-- Method `AppState::is_active`: more than `ACTIVE_DELAY` elapsed since start. -/
def is_active (st : AppState) (now : ℚ) : Bool :=
  decide (ACTIVE_DELAY < now - st.started)

/-- Method `AppState::calibrate`, evaluated at instant `now`.  Returns the updated
state and the boolean the source returns ("calibrated").  The match arms
mirror the source in order: waiting enters started; started whose guard
`now - last_max_instant > CALIBRATION_COMPLETE_DELAY` holds completes and
sets the timer start; otherwise a strictly larger loudness updates the
maximum and resets the last-maximum instant. -/
def calibrate (st : AppState) (now : ℚ) : AppState × Bool :=
  match st.calibration with
  | CalibrationStatus.waiting =>
      ({ st with calibration := CalibrationStatus.started now }, false)
  | CalibrationStatus.started t =>
      if CALIBRATION_COMPLETE_DELAY < now - t then
        ({ st with calibration := CalibrationStatus.complete,
                   timer_started := now }, true)
      else if st.last_calibrate_max < st.current_db then
        ({ st with last_calibrate_max := st.current_db,
                   calibration := CalibrationStatus.started now }, false)
      else (st, false)
  | CalibrationStatus.complete => (st, true)

/-- Method `AppState::peak_threshold`. -/
def peak_threshold (st : AppState) : ℚ :=
  st.baseline + PEAK_THRESHOLD

/-- Method `AppState::reset_threshold`. -/
def reset_threshold (st : AppState) : ℚ :=
  peak_threshold st - RESET_THRESHOLD

/-- Method `AppState::reset_peak`: if idle, do nothing; otherwise advance the
debounce counter and clear back to idle once the advanced counter exceeds
`RESET_DISTANCE` and the current loudness is strictly below the reset
threshold. -/
def reset_peak (st : AppState) : AppState :=
  if st.last_peak_distance = -1 then st
  else if RESET_DISTANCE < st.last_peak_distance + 1
          ∧ st.current_db < reset_threshold st then
    { st with last_peak_distance := -1 }
  else { st with last_peak_distance := st.last_peak_distance + 1 }

/-- Method `AppState::detect_peak`: a non-idle state is only advanced by
`reset_peak` and never registers; an idle state registers a burst exactly
when the current loudness strictly exceeds the peak threshold. -/
def detect_peak (st : AppState) : AppState × Bool :=
  if st.last_peak_distance ≠ -1 then (reset_peak st, false)
  else if peak_threshold st < st.current_db then
    ({ st with last_peak_distance := 0 }, true)
  else (st, false)

/-- The hard threshold computed by the control loop each tick:
`last_calibrate_max - (last_calibrate_max - baseline) * (1.0 - CALIBRATION_TOLERANCE)`. -/
def hard_threshold (st : AppState) : ℚ :=
  st.last_calibrate_max
    - (st.last_calibrate_max - st.baseline) * (1 - CALIBRATION_TOLERANCE)

/-- The observable outcome of one control-loop iteration. -/
inductive TickResult where
  | notActive : TickResult
  | notCalibrated : TickResult
  | finished : ℕ → ℕ → TickResult
  | ran : TickResult
deriving DecidableEq

/-- One iteration of the control loop in `run`, evaluated at instant
`now`: the settle-delay gate, the calibration gate, the deadline check
(`Duration::checked_sub` returns `none` exactly when the elapsed time
strictly exceeds the limit), the hard-threshold computation, peak
detection, and hard/soft classification of a freshly registered burst.
`TickResult.finished` carries the reported final counts. -/
def tick (st : AppState) (now : ℚ) : AppState × TickResult :=
  if ¬ is_active st now then (st, TickResult.notActive)
  else
    let st1 := (calibrate st now).1
    if (calibrate st now).2 = false then (st1, TickResult.notCalibrated)
    else if st1.time_limit < now - st1.timer_started then
      (st1, TickResult.finished st1.hard_claps st1.soft_claps)
    else
      let st2 := (detect_peak st1).1
      if (detect_peak st1).2 then
        if hard_threshold st1 ≤ st2.current_db then
          ({ st2 with hard_claps := st2.hard_claps + 1 }, TickResult.ran)
        else
          ({ st2 with soft_claps := st2.soft_claps + 1 }, TickResult.ran)
      else (st2, TickResult.ran)

/-- A calibration-phase control-loop tick observing loudness `db` at
instant `now`: the estimator has stored `db` as the current loudness by the
time the tick runs `calibrate`. -/
def calTick (st : AppState) (p : ℚ × ℚ) : AppState :=
  (calibrate { st with current_db := p.2 } p.1).1

/-- Running the calibration logic over a sequence of (instant, loudness)
ticks. -/
def runCal (st : AppState) (ticks : List (ℚ × ℚ)) : AppState :=
  ticks.foldl calTick st

/-- A peak-detection control-loop tick observing loudness `p.1` with
baseline `p.2`: detect or debounce on the freshly stored values. -/
def peakStep (st : AppState) (p : ℚ × ℚ) : AppState :=
  (detect_peak { st with current_db := p.1, baseline := p.2 }).1

/-- Running peak detection over a sequence of (loudness, baseline)
observations, one control-loop tick each. -/
def peakRun (st : AppState) (obs : List (ℚ × ℚ)) : AppState :=
  obs.foldl peakStep st

/-- The fields of the state that `calibrate` never writes. -/
lemma calibrate_preserves (st : AppState) (now : ℚ) :
    (calibrate st now).1.current_db = st.current_db
  ∧ (calibrate st now).1.baseline = st.baseline
  ∧ (calibrate st now).1.last_peak_distance = st.last_peak_distance
  ∧ (calibrate st now).1.hard_claps = st.hard_claps
  ∧ (calibrate st now).1.soft_claps = st.soft_claps
  ∧ (calibrate st now).1.time_limit = st.time_limit := by
  cases h : st.calibration <;> simp [calibrate, h]
  split_ifs <;> simp

/-- When `calibrate` reports "calibrated", it has not touched the
calibration maximum (the maximum is only updated in an arm that reports
"not yet calibrated"). -/
lemma calibrate_true_max (st : AppState) (now : ℚ)
    (h : (calibrate st now).2 = true) :
    (calibrate st now).1.last_calibrate_max = st.last_calibrate_max := by
  cases hc : st.calibration <;> simp [calibrate, hc] at h ⊢
  split_ifs at h ⊢ <;> simp_all

/-- Lemma: `detect_peak` reports a registered burst exactly when the state is
idle and the current loudness strictly exceeds the peak threshold. -/
lemma detect_peak_fired (st : AppState) :
    (detect_peak st).2 = true ↔
      st.last_peak_distance = -1 ∧ peak_threshold st < st.current_db := by
  by_cases h : st.last_peak_distance = -1 <;>
    simp [detect_peak, h] <;> split_ifs <;> simp_all

/-- Lemma: `detect_peak` never writes the counters or the loudness fields. -/
lemma detect_peak_preserves (st : AppState) :
    (detect_peak st).1.hard_claps = st.hard_claps
  ∧ (detect_peak st).1.soft_claps = st.soft_claps
  ∧ (detect_peak st).1.current_db = st.current_db
  ∧ (detect_peak st).1.baseline = st.baseline := by
  simp only [detect_peak, reset_peak]
  split_ifs <;> simp

/-- A control-loop tick whose result is `ran` reached peak detection: the
tick is exactly peak detection followed by classification of a freshly
registered burst. -/
lemma tick_ran_eq (st : AppState) (now : ℚ)
    (h : (tick st now).2 = TickResult.ran) :
    tick st now =
      (if (detect_peak (calibrate st now).1).2 then
        (if hard_threshold (calibrate st now).1
            ≤ (detect_peak (calibrate st now).1).1.current_db then
          ({ (detect_peak (calibrate st now).1).1 with
              hard_claps := (detect_peak (calibrate st now).1).1.hard_claps + 1 },
            TickResult.ran)
        else
          ({ (detect_peak (calibrate st now).1).1 with
              soft_claps := (detect_peak (calibrate st now).1).1.soft_claps + 1 },
            TickResult.ran))
      else ((detect_peak (calibrate st now).1).1, TickResult.ran)) := by
  have ha : is_active st now = true := by
    by_contra hna
    simp [tick, hna] at h
  have hcal : (calibrate st now).2 = true := by
    by_contra hnc
    simp [tick, ha, hnc] at h
  have hd : ¬ (calibrate st now).1.time_limit
      < now - (calibrate st now).1.timer_started := by
    by_contra hdd
    simp [tick, ha, hcal, hdd] at h
  simp [tick, ha, hcal, hd]

/-- A `ran` tick leaves `calibrate` reporting true, so the maximum seen at
classification is the maximum of the pre-tick state. -/
lemma tick_ran_calibrated (st : AppState) (now : ℚ)
    (h : (tick st now).2 = TickResult.ran) :
    (calibrate st now).2 = true := by
  by_contra hnc
  have ha : is_active st now = true := by
    by_contra hna
    simp [tick, hna] at h
  simp [tick, ha, hnc] at h

/-- Claim C3: on every control-loop tick that reaches peak detection
(active, calibrated, before the deadline — result `TickResult.ran`), a new
burst event is registered (exactly one counter is incremented) if and only
if the peak state is idle (distance -1) and the current loudness strictly
exceeds `baseline + PEAK_THRESHOLD`; while the peak state is non-idle, no
tick registers a burst, so each physical burst produces at most one
classification event. -/
theorem claim_C3 (st : AppState) (now : ℚ)
    (h : (tick st now).2 = TickResult.ran) :
    ((tick st now).1.hard_claps + (tick st now).1.soft_claps
        = st.hard_claps + st.soft_claps + 1
      ↔ st.last_peak_distance = -1 ∧ peak_threshold st < st.current_db)
  ∧ (st.last_peak_distance ≠ -1 →
      (tick st now).1.hard_claps = st.hard_claps
        ∧ (tick st now).1.soft_claps = st.soft_claps) := by
  have ht := tick_ran_eq st now h
  obtain ⟨e1, e2, e3, e4, e5, e6⟩ := calibrate_preserves st now
  obtain ⟨p1, p2, p3, p4⟩ := detect_peak_preserves (calibrate st now).1
  have hfir := detect_peak_fired (calibrate st now).1
  have hpt : peak_threshold (calibrate st now).1 = peak_threshold st := by
    simp [peak_threshold, e2]
  rw [hpt, e1, e3] at hfir
  rw [ht]
  by_cases hp : (detect_peak (calibrate st now).1).2 = true
  · have hreg := hfir.mp hp
    simp only [hp, if_true, ite_true]
    constructor
    · split_ifs with hth <;> simp only [AppState.mk.injEq] <;>
        simp only [p1, p2, e4, e5] <;>
        exact ⟨fun _ => hreg, fun _ => by omega⟩
    · intro hne
      exact absurd hreg.1 hne
  · have hpf : (detect_peak (calibrate st now).1).2 = false := by
      revert hp
      cases (detect_peak (calibrate st now).1).2 <;> simp
    simp only [hpf, Bool.false_eq_true, if_false, ite_false]
    constructor
    · rw [p1, p2, e4, e5]
      constructor
      · intro hh
        omega
      · intro hc
        exact absurd (hfir.mpr hc) (by simp [hpf])
    · intro hne
      rw [p1, p2, e4, e5]
      exact ⟨rfl, rfl⟩

/-- Claim C1: on every control-loop tick on which a burst is registered
(the tick reached peak detection and exactly one counter was incremented),
with `M = last_calibrate_max` and `B = baseline` at that tick, the hard
counter is incremented if and only if the current loudness is at or above
`M - (1/10) * (M - B)` (which is the computed threshold
`M - (M - B) * (1 - CALIBRATION_TOLERANCE)`), and otherwise the soft
counter is incremented. -/
theorem claim_C1 (st : AppState) (now : ℚ)
    (h : (tick st now).2 = TickResult.ran)
    (hreg : (tick st now).1.hard_claps + (tick st now).1.soft_claps
        = st.hard_claps + st.soft_claps + 1) :
    ((tick st now).1.hard_claps = st.hard_claps + 1 ↔
        st.last_calibrate_max
          - (1 / 10) * (st.last_calibrate_max - st.baseline) ≤ st.current_db)
  ∧ ((tick st now).1.soft_claps = st.soft_claps + 1 ↔
        st.current_db < st.last_calibrate_max
          - (1 / 10) * (st.last_calibrate_max - st.baseline)) := by
  have ht := tick_ran_eq st now h
  have hcal := tick_ran_calibrated st now h
  obtain ⟨e1, e2, e3, e4, e5, e6⟩ := calibrate_preserves st now
  obtain ⟨p1, p2, p3, p4⟩ := detect_peak_preserves (calibrate st now).1
  have hmax := calibrate_true_max st now hcal
  have hthr : hard_threshold (calibrate st now).1
      = st.last_calibrate_max
          - (1 / 10) * (st.last_calibrate_max - st.baseline) := by
    rw [hard_threshold, hmax, e2, CALIBRATION_TOLERANCE]
    ring
  rw [ht] at hreg ⊢
  by_cases hp : (detect_peak (calibrate st now).1).2 = true
  · simp only [hp, if_true, ite_true] at hreg ⊢
    split_ifs at hreg ⊢ with hth <;>
      simp only [hthr, p3, e1] at hth <;>
      simp only [p1, p2, e4, e5]
    · refine ⟨⟨fun _ => hth, fun _ => trivial⟩, ?_⟩
      exact ⟨fun hh => absurd hh (by omega), fun hh => absurd hh (not_lt.mpr hth)⟩
    · refine ⟨⟨fun hh => absurd hh (by omega), fun hh => absurd hh hth⟩, ?_⟩
      exact ⟨fun _ => not_le.mp hth, fun _ => trivial⟩
  · have hpf : (detect_peak (calibrate st now).1).2 = false := by
      revert hp
      cases (detect_peak (calibrate st now).1).2 <;> simp
    simp only [hpf, Bool.false_eq_true, if_false, ite_false] at hreg
    rw [p1, p2, e4, e5] at hreg
    omega

/-- The spec scenario state for claim C1: baseline 0, calibration maximum
20 (so the hard threshold is 18), idle peak state, calibration complete,
a burst about to register at loudness 19. -/
def w19 : AppState :=
  { current_db := 19, baseline := 0, last_peak_distance := -1, started := 0,
    last_calibrate_max := 20, calibration := CalibrationStatus.complete,
    timer_started := 2, time_limit := 6, hard_claps := 0, soft_claps := 0 }

/-- The spec scenario state with current loudness 10 instead of 19:
loudness 10 is below the peak-detection threshold `baseline + 15 = 15`,
so no burst registers on this tick. -/
def w10 : AppState :=
  { w19 with current_db := 10 }

/-- The spec scenario state with current loudness 16: above the
peak-detection threshold 15 and strictly below the hard threshold 18, so
a burst registers and classifies soft. -/
def w16 : AppState :=
  { w19 with current_db := 16 }

/-- Counterexample for claim C1 as stated: in the spec scenario
(baseline 0, calibration maximum 20, peak state idle, calibration
complete) a tick at loudness 10 reaches peak detection but registers no
burst at all — loudness 10 is below the peak-detection threshold
`baseline + PEAK_THRESHOLD = 15` — so the soft counter stays 0 rather
than becoming 1 as the claim asserts. -/
theorem claim_C1_counterexample :
    (tick w10 3).2 = TickResult.ran
  ∧ (tick w10 3).1.soft_claps = 0
  ∧ (tick w10 3).1.hard_claps = 0 := by
  norm_num [tick, is_active, calibrate, detect_peak, reset_peak,
    peak_threshold, hard_threshold, w10, w19, ACTIVE_DELAY, PEAK_THRESHOLD,
    RESET_THRESHOLD, RESET_DISTANCE, CALIBRATION_TOLERANCE]

/-- Witness for the amended claim C1, instantiating the spec scenario:
with baseline 0 and calibration maximum 20 (threshold 18) a registered
burst at loudness 19 increments the hard counter, and a registered burst
at loudness 16 increments the soft counter. -/
theorem claim_C1_witness :
    (((tick w19 3).1.hard_claps = w19.hard_claps + 1 ↔
        w19.last_calibrate_max
          - (1 / 10) * (w19.last_calibrate_max - w19.baseline) ≤ w19.current_db)
      ∧ (tick w19 3).1.hard_claps = 1)
  ∧ (((tick w16 3).1.soft_claps = w16.soft_claps + 1 ↔
        w16.current_db < w16.last_calibrate_max
          - (1 / 10) * (w16.last_calibrate_max - w16.baseline))
      ∧ (tick w16 3).1.soft_claps = 1) :=
  ⟨⟨(claim_C1 w19 3
      (by norm_num [tick, is_active, calibrate, detect_peak, reset_peak,
        peak_threshold, hard_threshold, w19, ACTIVE_DELAY, PEAK_THRESHOLD,
        RESET_THRESHOLD, RESET_DISTANCE, CALIBRATION_TOLERANCE])
      (by norm_num [tick, is_active, calibrate, detect_peak, reset_peak,
        peak_threshold, hard_threshold, w19, ACTIVE_DELAY, PEAK_THRESHOLD,
        RESET_THRESHOLD, RESET_DISTANCE, CALIBRATION_TOLERANCE])).1,
    by norm_num [tick, is_active, calibrate, detect_peak, reset_peak,
        peak_threshold, hard_threshold, w19, ACTIVE_DELAY, PEAK_THRESHOLD,
        RESET_THRESHOLD, RESET_DISTANCE, CALIBRATION_TOLERANCE]⟩,
   ⟨(claim_C1 w16 3
      (by norm_num [tick, is_active, calibrate, detect_peak, reset_peak,
        peak_threshold, hard_threshold, w16, w19, ACTIVE_DELAY, PEAK_THRESHOLD,
        RESET_THRESHOLD, RESET_DISTANCE, CALIBRATION_TOLERANCE])
      (by norm_num [tick, is_active, calibrate, detect_peak, reset_peak,
        peak_threshold, hard_threshold, w16, w19, ACTIVE_DELAY, PEAK_THRESHOLD,
        RESET_THRESHOLD, RESET_DISTANCE, CALIBRATION_TOLERANCE])).2,
    by norm_num [tick, is_active, calibrate, detect_peak, reset_peak,
        peak_threshold, hard_threshold, w16, w19, ACTIVE_DELAY, PEAK_THRESHOLD,
        RESET_THRESHOLD, RESET_DISTANCE, CALIBRATION_TOLERANCE]⟩⟩

/-- Witness for claim C3: in the spec scenario state a tick at loudness 19
reaches peak detection, and the registration equivalence holds there. -/
theorem claim_C3_witness :
    ((tick w19 3).1.hard_claps + (tick w19 3).1.soft_claps
        = w19.hard_claps + w19.soft_claps + 1
      ↔ w19.last_peak_distance = -1 ∧ peak_threshold w19 < w19.current_db)
  ∧ (w19.last_peak_distance ≠ -1 →
      (tick w19 3).1.hard_claps = w19.hard_claps
        ∧ (tick w19 3).1.soft_claps = w19.soft_claps) :=
  claim_C3 w19 3
    (by norm_num [tick, is_active, calibrate, detect_peak, reset_peak,
      peak_threshold, hard_threshold, w19, ACTIVE_DELAY, PEAK_THRESHOLD,
      RESET_THRESHOLD, RESET_DISTANCE, CALIBRATION_TOLERANCE])

/-- Counterexample for claim C4 as stated: in the spec scenario state
(time limit 6 s, timer started at 2) the tick at instant 8 has elapsed
time exactly equal to the limit — so by the claim the run should
terminate with no burst counted — yet `Duration::checked_sub` yields a
zero remainder rather than `None`, the tick runs peak detection, and the
burst at loudness 19 is still counted. -/
theorem claim_C4_counterexample :
    w19.time_limit ≤ 8 - w19.timer_started
  ∧ (tick w19 8).2 = TickResult.ran
  ∧ (tick w19 8).1.hard_claps = w19.hard_claps + 1 := by
  norm_num [tick, is_active, calibrate, detect_peak, reset_peak,
    peak_threshold, hard_threshold, w19, ACTIVE_DELAY, PEAK_THRESHOLD,
    RESET_THRESHOLD, RESET_DISTANCE, CALIBRATION_TOLERANCE]

/-- Claim C4 amended: on every control-loop tick after calibration
completes (active, calibration already complete), the run terminates —
reporting exactly the accumulated hard and soft counts, with the state
unchanged so no burst is counted on that tick — if and only if the
elapsed time since timer start STRICTLY EXCEEDS the configured time
limit (at exactly the limit the tick still runs). -/
theorem claim_C4_amended (st : AppState) (now : ℚ)
    (hact : is_active st now = true)
    (hcal : st.calibration = CalibrationStatus.complete) :
    ((tick st now).2 = TickResult.finished st.hard_claps st.soft_claps ↔
        st.time_limit < now - st.timer_started)
  ∧ (st.time_limit < now - st.timer_started → (tick st now).1 = st) := by
  have hc : calibrate st now = (st, true) := by
    simp [calibrate, hcal]
  by_cases hdd : st.time_limit < now - st.timer_started
  · have ht : tick st now = (st, TickResult.finished st.hard_claps st.soft_claps) := by
      simp [tick, hact, hc, hdd]
    rw [ht]
    exact ⟨⟨fun _ => hdd, fun _ => rfl⟩, fun _ => rfl⟩
  · have h2 : (tick st now).2 = TickResult.ran := by
      by_cases hb : (detect_peak st).2 = true
      · by_cases hth : hard_threshold st ≤ (detect_peak st).1.current_db
        · simp [tick, hact, hc, hdd, hb, hth]
        · simp [tick, hact, hc, hdd, hb, hth]
      · simp [tick, hact, hc, hdd, hb]
    refine ⟨⟨fun hfin => ?_, fun hdd2 => absurd hdd2 hdd⟩,
      fun hdd2 => absurd hdd2 hdd⟩
    rw [h2] at hfin
    exact absurd hfin (by simp)

/-- Witness for the amended claim C4: in the spec scenario state the tick
at instant 9 (elapsed 7 s, strictly past the 6 s limit) terminates with
the accumulated counts and an unchanged state. -/
theorem claim_C4_witness :
    ((tick w19 9).2 = TickResult.finished w19.hard_claps w19.soft_claps ↔
        w19.time_limit < 9 - w19.timer_started)
  ∧ (w19.time_limit < 9 - w19.timer_started → (tick w19 9).1 = w19) :=
  claim_C4_amended w19 9 (by norm_num [is_active, w19, ACTIVE_DELAY]) rfl

/-- Claim C6: whenever the peak state is active (the debounce counter,
ticks since registration, is at least 0), a control-loop tick returns it
to idle exactly when the advanced counter exceeds `RESET_DISTANCE = 8`
and the current loudness is strictly below
`baseline + PEAK_THRESHOLD - RESET_THRESHOLD`; otherwise the counter
advances by one and the state stays active. -/
theorem claim_C6 (st : AppState) (h : 0 ≤ st.last_peak_distance) :
    ((detect_peak st).1.last_peak_distance = -1 ↔
        RESET_DISTANCE < st.last_peak_distance + 1
          ∧ st.current_db < st.baseline + PEAK_THRESHOLD - RESET_THRESHOLD)
  ∧ (¬ (RESET_DISTANCE < st.last_peak_distance + 1
          ∧ st.current_db < st.baseline + PEAK_THRESHOLD - RESET_THRESHOLD) →
        (detect_peak st).1.last_peak_distance = st.last_peak_distance + 1
          ∧ (detect_peak st).1.last_peak_distance ≠ -1) := by
  have hne : st.last_peak_distance ≠ -1 := by omega
  have hd : detect_peak st = (reset_peak st, false) := by
    simp [detect_peak, hne]
  have hrt : reset_threshold st = st.baseline + PEAK_THRESHOLD - RESET_THRESHOLD := by
    simp [reset_threshold, peak_threshold]
  rw [hd]
  simp only [reset_peak, if_neg hne, hrt]
  split_ifs with hcond
  · exact ⟨⟨fun _ => hcond, fun _ => rfl⟩, fun hn => absurd hcond hn⟩
  · constructor
    · constructor
      · intro hh
        exact absurd (show st.last_peak_distance + 1 = -1 from hh) (by omega)
      · intro hh
        exact absurd hh hcond
    · intro hn
      refine ⟨rfl, fun hh => ?_⟩
      exact absurd (show st.last_peak_distance + 1 = -1 from hh) (by omega)

/-- A state with an active peak (counter 8) and loudness 5, about to
satisfy both reset conditions. -/
def c6w : AppState :=
  { w19 with current_db := 5, last_peak_distance := 8 }

/-- Witness for claim C6: with the counter at 8 and loudness 5 (below
the reset threshold 11), the tick advances the counter to 9, which
exceeds 8, and the state returns to idle. -/
theorem claim_C6_witness :
    ((detect_peak c6w).1.last_peak_distance = -1 ↔
        RESET_DISTANCE < c6w.last_peak_distance + 1
          ∧ c6w.current_db < c6w.baseline + PEAK_THRESHOLD - RESET_THRESHOLD)
  ∧ (¬ (RESET_DISTANCE < c6w.last_peak_distance + 1
          ∧ c6w.current_db < c6w.baseline + PEAK_THRESHOLD - RESET_THRESHOLD) →
        (detect_peak c6w).1.last_peak_distance = c6w.last_peak_distance + 1
          ∧ (detect_peak c6w).1.last_peak_distance ≠ -1) :=
  claim_C6 c6w (by norm_num [c6w, w19])

/-- Unfolding one calibration tick of a run. -/
lemma runCal_cons (st : AppState) (p : ℚ × ℚ) (ps : List (ℚ × ℚ)) :
    runCal st (p :: ps) = runCal (calTick st p) ps := rfl

/-- Unfolding one peak tick of a run. -/
lemma peakRun_cons (st : AppState) (p : ℚ × ℚ) (ps : List (ℚ × ℚ)) :
    peakRun st (p :: ps) = peakRun (peakStep st p) ps := rfl

/-- Claim C5: the calibration state transitions from started to complete
on a tick only when strictly more than `CALIBRATION_COMPLETE_DELAY = 2`
seconds have elapsed since the stored last-maximum instant, and the timer
start is then set to that tick; the stored instant is set on entering
started and reset exactly on ticks that observe a strictly larger
loudness than the current maximum, so it is the instant of the last tick
that updated the maximum (or of entering started if none did). -/
theorem claim_C5 (st : AppState) (now : ℚ) :
    (∀ t, st.calibration = CalibrationStatus.started t →
       (((calibrate st now).1.calibration = CalibrationStatus.complete ↔
           CALIBRATION_COMPLETE_DELAY < now - t)
        ∧ ((calibrate st now).1.calibration = CalibrationStatus.complete →
             (calibrate st now).1.timer_started = now)))
  ∧ (st.calibration = CalibrationStatus.waiting →
       (calibrate st now).1.calibration = CalibrationStatus.started now)
  ∧ (∀ t, st.calibration = CalibrationStatus.started t →
       ¬ CALIBRATION_COMPLETE_DELAY < now - t →
       (calibrate st now).1.calibration =
         CalibrationStatus.started
           (if st.last_calibrate_max < st.current_db then now else t)) := by
  refine ⟨fun t ht => ?_, fun hw => ?_, fun t ht hq => ?_⟩
  · simp only [calibrate, ht]
    split_ifs with h1 h2 <;> simp_all
  · simp [calibrate, hw]
  · simp only [calibrate, ht]
    split_ifs with h2 <;> simp_all

/-- A calibration-phase state: started with last-maximum instant 0 and
calibration maximum 20. -/
def c5w : AppState :=
  { w19 with calibration := CalibrationStatus.started 0 }

/-- Witness for claim C5: from started with last-maximum instant 0, the
tick at instant 3 completes calibration (3 seconds of quiet exceed the 2
second period) and sets the timer start to 3. -/
theorem claim_C5_witness :
    ((calibrate c5w 3).1.calibration = CalibrationStatus.complete ↔
        CALIBRATION_COMPLETE_DELAY < 3 - 0)
  ∧ ((calibrate c5w 3).1.calibration = CalibrationStatus.complete →
        (calibrate c5w 3).1.timer_started = 3) :=
  (claim_C5 c5w 3).1 0 rfl

/-- Once calibration is complete it stays complete over any further
ticks, and the stored maximum is never touched again. -/
lemma runCal_complete_fix (ticks : List (ℚ × ℚ)) :
    ∀ st : AppState, st.calibration = CalibrationStatus.complete →
      (runCal st ticks).calibration = CalibrationStatus.complete
      ∧ (runCal st ticks).last_calibrate_max = st.last_calibrate_max := by
  induction ticks with
  | nil =>
    intro st h
    exact ⟨h, rfl⟩
  | cons p ps ih =>
    intro st h
    have hstep : calTick st p = { st with current_db := p.2 } := by
      simp [calTick, calibrate, h]
    rw [runCal_cons, hstep]
    exact ih _ h

/-- Over any tick sequence whose loudness never strictly exceeds the
stored maximum `M`, a started calibration keeps its maximum and its
timestamp until it completes, and completes as soon as some tick is more
than the quiet period after the timestamp. -/
lemma runCal_quiet (t M : ℚ) :
    ∀ (ticks : List (ℚ × ℚ)), (∀ p ∈ ticks, p.2 ≤ M) →
    ∀ st : AppState, st.last_calibrate_max = M →
      st.calibration = CalibrationStatus.started t →
      ((runCal st ticks).last_calibrate_max = M
        ∧ ((runCal st ticks).calibration = CalibrationStatus.started t
            ∨ (runCal st ticks).calibration = CalibrationStatus.complete))
      ∧ ((∃ p ∈ ticks, CALIBRATION_COMPLETE_DELAY < p.1 - t) →
          (runCal st ticks).calibration = CalibrationStatus.complete) := by
  intro ticks
  induction ticks with
  | nil =>
    intro _ st hM hc
    exact ⟨⟨hM, Or.inl hc⟩, by simp⟩
  | cons p ps ih =>
    intro hdb st hM hc
    by_cases hq : CALIBRATION_COMPLETE_DELAY < p.1 - t
    · have hstep : calTick st p =
          { st with
            current_db := p.2,
            calibration := CalibrationStatus.complete,
            timer_started := p.1 } := by
        simp [calTick, calibrate, hc, hq]
      rw [runCal_cons, hstep]
      have hfix := runCal_complete_fix ps
        { st with
          current_db := p.2,
          calibration := CalibrationStatus.complete,
          timer_started := p.1 } rfl
      exact ⟨⟨by rw [hfix.2]; exact hM, Or.inr hfix.1⟩, fun _ => hfix.1⟩
    · have hdbp : p.2 ≤ M := hdb p (List.mem_cons_self p ps)
      have hnlt : ¬ st.last_calibrate_max < p.2 := by
        rw [hM]
        exact not_lt.mpr hdbp
      have hstep : calTick st p = { st with current_db := p.2 } := by
        simp [calTick, calibrate, hc, hq, hnlt]
      rw [runCal_cons, hstep]
      have hrest := ih (fun q hq2 => hdb q (List.mem_cons_of_mem p hq2))
        { st with current_db := p.2 } hM hc
      refine ⟨hrest.1, fun hex => ?_⟩
      rcases hex with ⟨q, hqmem, hqq⟩
      rcases List.mem_cons.mp hqmem with h1 | h2
      · exact absurd (h1 ▸ hqq) hq
      · exact hrest.2 ⟨q, h2, hqq⟩

/-- Claim C9: from a started calibration with current maximum `M`,
running the calibration step over any tick sequence whose loudness never
strictly exceeds `M` and that lasts longer than the quiet period
completes calibration with the maximum still equal to `M`; a tick that
ties `M` without exceeding the quiet period changes neither the
calibration variant (including its timestamp) nor the maximum. -/
theorem claim_C9 (st : AppState) (t M : ℚ)
    (hc : st.calibration = CalibrationStatus.started t)
    (hM : st.last_calibrate_max = M)
    (ticks : List (ℚ × ℚ))
    (hdb : ∀ p ∈ ticks, p.2 ≤ M)
    (hlong : ∃ p ∈ ticks, CALIBRATION_COMPLETE_DELAY < p.1 - t) :
    (runCal st ticks).calibration = CalibrationStatus.complete
  ∧ (runCal st ticks).last_calibrate_max = M
  ∧ (∀ now db, db ≤ M → ¬ CALIBRATION_COMPLETE_DELAY < now - t →
      (calTick st (now, db)).calibration = CalibrationStatus.started t
      ∧ (calTick st (now, db)).last_calibrate_max = M) := by
  have h := runCal_quiet t M ticks hdb st hM hc
  refine ⟨h.2 hlong, h.1.1, fun now db hdb2 hq => ?_⟩
  have hnlt : ¬ st.last_calibrate_max < db := by
    rw [hM]
    exact not_lt.mpr hdb2
  have hstep : calTick st (now, db) = { st with current_db := db } := by
    simp [calTick, calibrate, hc, hq, hnlt]
  rw [hstep]
  exact ⟨hc, hM⟩

/-- Witness for claim C9: from started at instant 0 with maximum 20, one
tick at instant 3 with loudness 19 (a non-exceeding tick past the quiet
period) completes calibration with the maximum still 20, and
non-exceeding ticks inside the quiet period change nothing. -/
theorem claim_C9_witness :
    (runCal c5w [(3, 19)]).calibration = CalibrationStatus.complete
  ∧ (runCal c5w [(3, 19)]).last_calibrate_max = 20
  ∧ (∀ now db, db ≤ 20 → ¬ CALIBRATION_COMPLETE_DELAY < now - 0 →
      (calTick c5w (now, db)).calibration = CalibrationStatus.started 0
      ∧ (calTick c5w (now, db)).last_calibrate_max = 20) :=
  claim_C9 c5w 0 20 rfl rfl [(3, 19)]
    (by norm_num)
    ⟨(3, 19), by norm_num [CALIBRATION_COMPLETE_DELAY]⟩

/-- While the debounce reset has not yet fired, each active peak tick
advances the counter by exactly one: a run of `obs` ticks from an active
state at counter `d` on which no tick satisfies the reset condition ends
at counter `d + obs.length`. -/
lemma peakRun_active (obs : List (ℚ × ℚ)) :
    ∀ (st : AppState) (d : ℕ), st.last_peak_distance = (d : ℤ) →
      (∀ j < obs.length,
        ¬ (RESET_DISTANCE < (d : ℤ) + (j : ℤ) + 1
            ∧ (obs.getD j (0, 0)).1
              < (obs.getD j (0, 0)).2 + PEAK_THRESHOLD - RESET_THRESHOLD)) →
      (peakRun st obs).last_peak_distance = (d : ℤ) + obs.length := by
  induction obs with
  | nil =>
    intro st d hd _
    simpa using hd
  | cons p ps ih =>
    intro st d hd hno
    have hne : st.last_peak_distance ≠ -1 := by
      rw [hd]
      omega
    have h0 := hno 0 (by simp)
    simp only [List.getD_cons_zero, Nat.cast_zero, add_zero] at h0
    have hcond : ¬ (RESET_DISTANCE < st.last_peak_distance + 1
        ∧ p.1 < p.2 + PEAK_THRESHOLD - RESET_THRESHOLD) := by
      rw [hd]
      exact h0
    have hstep : peakStep st p =
        { st with
          current_db := p.1,
          baseline := p.2,
          last_peak_distance := st.last_peak_distance + 1 } := by
      simp [peakStep, detect_peak, reset_peak, reset_threshold, peak_threshold,
        hne, hcond]
    rw [peakRun_cons, hstep]
    have hd2 : ({ st with
        current_db := p.1,
        baseline := p.2,
        last_peak_distance := st.last_peak_distance + 1 }).last_peak_distance
        = ((d + 1 : ℕ) : ℤ) := by
      simp [hd]
    have hno2 : ∀ j < ps.length,
        ¬ (RESET_DISTANCE < ((d + 1 : ℕ) : ℤ) + (j : ℤ) + 1
            ∧ (ps.getD j (0, 0)).1
              < (ps.getD j (0, 0)).2 + PEAK_THRESHOLD - RESET_THRESHOLD) := by
      intro j hj hcc
      have hj2 := hno (j + 1) (by simpa using Nat.succ_lt_succ hj)
      rw [List.getD_cons_succ] at hj2
      apply hj2
      refine ⟨?_, hcc.2⟩
      have h1 := hcc.1
      push_cast at h1 ⊢
      omega
    rw [ih _ (d + 1) hd2 hno2]
    simp only [List.length_cons]
    push_cast
    ring

/-- The debounce reset condition of the code at tick index `j` of an
observation list (loudness, baseline), for a burst registered just before
tick 0, where the counter equals `j` when tick `j` is processed: the
advanced counter `j + 1` exceeds `RESET_DISTANCE` and the loudness at
tick `j` is strictly below the reset threshold for the baseline at tick
`j`. -/
def resetCondition (obs : List (ℚ × ℚ)) (j : ℕ) : Prop :=
  RESET_DISTANCE < (j : ℤ) + 1
    ∧ (obs.getD j (0, 0)).1 < (obs.getD j (0, 0)).2 + PEAK_THRESHOLD - RESET_THRESHOLD

/-- Claim C8 amended: once a burst is registered (counter 0), the counter
increases by one on every tick on which the reset condition has not yet
held, and the state returns to idle exactly at the first tick whose
advanced counter exceeds `RESET_DISTANCE = 8` and whose loudness is
strictly below the reset threshold on that single tick — no consecutive
run of below-threshold ticks is required. -/
theorem claim_C8_amended (st : AppState) (h0 : st.last_peak_distance = 0)
    (obs : List (ℚ × ℚ)) :
    ((∀ j < obs.length, ¬ resetCondition obs j) →
        (peakRun st obs).last_peak_distance = (obs.length : ℤ))
  ∧ (∀ i < obs.length, (∀ j < i, ¬ resetCondition obs j) → resetCondition obs i →
        (peakRun st (obs.take (i + 1))).last_peak_distance = -1) := by
  constructor
  · intro hno
    have h := peakRun_active obs st 0 (by simpa using h0) ?_
    · simpa using h
    · intro j hj
      have hx := hno j hj
      rw [resetCondition] at hx
      simpa using hx
  · intro i hi hbefore hcur
    have hlen : (obs.take i).length = i := by
      rw [List.length_take]
      omega
    have h1 : (peakRun st (obs.take i)).last_peak_distance = (i : ℤ) := by
      have h := peakRun_active (obs.take i) st 0 (by simpa using h0) ?_
      · rw [h, hlen]
        simp
      · intro j hj
        rw [hlen] at hj
        have hmem : (obs.take i).getD j (0, 0) = obs.getD j (0, 0) := by
          rw [List.getD_eq_getElem?_getD, List.getD_eq_getElem?_getD,
            List.getElem?_take, if_pos hj]
        rw [hmem]
        have hx := hbefore j hj
        rw [resetCondition] at hx
        simpa using hx
    have htake : obs.take (i + 1) = obs.take i ++ [obs.getD i (0, 0)] := by
      rw [List.take_succ, List.getElem?_eq_getElem hi,
        List.getD_eq_getElem?_getD, List.getElem?_eq_getElem hi]
      simp
    have happ : peakRun st (obs.take i ++ [obs.getD i (0, 0)])
        = peakStep (peakRun st (obs.take i)) (obs.getD i (0, 0)) := by
      rw [peakRun, List.foldl_append]
      rfl
    rw [htake, happ]
    rcases hcur with ⟨hc1, hc2⟩
    have hgd : obs.getD i (0, 0) = obs[i] := by
      rw [List.getD_eq_getElem?_getD, List.getElem?_eq_getElem hi]
      rfl
    rw [hgd] at hc2 ⊢
    have hne : (peakRun st (obs.take i)).last_peak_distance ≠ -1 := by
      rw [h1]
      omega
    simp [peakStep, detect_peak, reset_peak, reset_threshold, peak_threshold,
      hne, h1, hc1, hc2]

/-- A freshly registered state: counter 0, in the spec scenario setting. -/
def c8w : AppState :=
  { w19 with current_db := 20, last_peak_distance := 0 }

/-- The observation trace refuting claim C8 as stated: eight ticks at
loudness 20 with baseline 0 (above the reset threshold 11) followed by a
single tick at loudness 5 (below it). -/
def c8obs : List (ℚ × ℚ) :=
  [(20, 0), (20, 0), (20, 0), (20, 0), (20, 0), (20, 0), (20, 0), (20, 0), (5, 0)]

/-- Counterexample for claim C8 as stated: it is not true that whenever a
run from a registered burst returns the peak state to idle, the loudness
stayed below the reset threshold on the final eight consecutive ticks.
On `c8obs` the state returns to idle on the ninth tick even though the
loudness was below the reset threshold only on that single final tick
(the previous eight ticks were at loudness 20, far above threshold 11). -/
theorem claim_C8_counterexample :
    ¬ (∀ (st : AppState) (obs : List (ℚ × ℚ)),
        st.last_peak_distance = 0 →
        (peakRun st obs).last_peak_distance = -1 →
        8 ≤ obs.length
          ∧ ∀ p ∈ obs.drop (obs.length - 8),
              p.1 < p.2 + PEAK_THRESHOLD - RESET_THRESHOLD) := by
  intro hcl
  have hrun : (peakRun c8w c8obs).last_peak_distance = -1 := by
    norm_num [peakRun, peakStep, detect_peak, reset_peak, reset_threshold,
      peak_threshold, c8w, c8obs, w19, PEAK_THRESHOLD, RESET_THRESHOLD,
      RESET_DISTANCE]
  have h := hcl c8w c8obs rfl hrun
  have hmem : ((20 : ℚ), (0 : ℚ)) ∈ c8obs.drop (c8obs.length - 8) := by
    norm_num [c8obs]
  have hx := h.2 _ hmem
  norm_num [PEAK_THRESHOLD, RESET_THRESHOLD] at hx

/-- Witness for the amended claim C8: on the trace `c8obs` the first
eight ticks fail the reset condition (the advanced counter is at most 8),
the ninth tick satisfies it (counter 9 exceeds 8 and loudness 5 is below
threshold 11), and the run returns to idle exactly there. -/
theorem claim_C8_witness :
    (peakRun c8w (c8obs.take 9)).last_peak_distance = -1 :=
  (claim_C8_amended c8w rfl c8obs).2 8 (by norm_num [c8obs])
    (by
      intro j hj
      rw [resetCondition, RESET_DISTANCE]
      rintro ⟨hx, -⟩
      omega)
    (by
      rw [resetCondition]
      norm_num [c8obs, RESET_DISTANCE, PEAK_THRESHOLD, RESET_THRESHOLD])

/-- Unfolding one block of an estimator run. -/
lemma estRun_cons (st : EstState) (d : F) (ds : List F) :
    estRun st (d :: ds) = estRun (ingestDb st d) ds := rfl

/-- Adding two finite values. -/
lemma fadd_fin (a b : ℚ) : fadd (F.fin a) (F.fin b) = F.fin (a + b) := rfl

/-- Adding a non-NaN value to negative infinity on the left. -/
lemma fadd_negInf_left (b : F) (h : b ≠ F.nan) : fadd F.negInf b = F.negInf := by
  cases b <;> simp_all [fadd]

/-- Adding negative infinity to a non-NaN value on the right. -/
lemma fadd_negInf_right (a : F) (h : a ≠ F.nan) : fadd a F.negInf = F.negInf := by
  cases a <;> simp_all [fadd]

/-- Dividing a finite value by a positive count. -/
lemma fdivN_fin (a : ℚ) (n : ℕ) (h : n ≠ 0) : fdivN (F.fin a) n = F.fin (a / n) := by
  simp [fdivN, h]

/-- Dividing negative infinity by a positive count. -/
lemma fdivN_negInf (n : ℕ) (h : n ≠ 0) : fdivN F.negInf n = F.negInf := by
  simp [fdivN, h]

/-- Multiplying negative infinity by a positive count. -/
lemma fmulN_negInf (n : ℕ) (h : n ≠ 0) : fmulN F.negInf n = F.negInf := by
  simp [fmulN, h]

/-- During the warm-up window one `process_audio` call increments the
count, adds the loudness to the running sum, and recomputes the baseline
as the new sum over the new count; the conditional reseed of a zero
baseline is immediately overwritten by that recomputation, so it does not
affect the result. -/
lemma ingestDb_warmup (st : EstState) (db : F)
    (h : st.baseline_samples < BASELINE_WINDOW) :
    ingestDb st db =
      { current_db := db,
        baseline := fdivN (fadd st.baseline_sum db) (st.baseline_samples + 1),
        baseline_samples := st.baseline_samples + 1,
        baseline_sum := fadd st.baseline_sum db } := by
  simp only [ingestDb]
  split_ifs <;> first
    | rfl
    | exact absurd h (by assumption)

/-- After the warm-up window, when the baseline does not compare equal to
zero, one `process_audio` call stores the loudness and applies the
exponentially weighted moving-average update, leaving count and sum
untouched. -/
lemma ingestDb_ewma (st : EstState) (db : F)
    (h : ¬ st.baseline_samples < BASELINE_WINDOW) (hb : st.baseline ≠ F.fin 0) :
    ingestDb st db =
      { st with
        current_db := db,
        baseline := fdivN (fadd (fmulN st.baseline (BASELINE_WINDOW - 1)) db)
          BASELINE_WINDOW } := by
  simp only [ingestDb]
  split_ifs <;> first
    | rfl
    | exact absurd (by assumption) hb
    | exact absurd (by assumption) h

/-- During the warm-up window the estimator maintains the running sum and
the arithmetic mean: folding finite loudness values into a state with a
finite running sum and enough window room yields count, sum, and (once at
least one value has been folded) the exact mean as baseline. -/
lemma estRun_warmup (dbs : List ℚ) :
    ∀ (st : EstState) (S : ℚ), st.baseline_sum = F.fin S →
      st.baseline_samples + dbs.length ≤ BASELINE_WINDOW →
      (estRun st (dbs.map F.fin)).baseline_samples
          = st.baseline_samples + dbs.length
      ∧ (estRun st (dbs.map F.fin)).baseline_sum = F.fin (S + dbs.sum)
      ∧ (dbs ≠ [] →
          (estRun st (dbs.map F.fin)).baseline
            = F.fin ((S + dbs.sum) / (st.baseline_samples + dbs.length))) := by
  induction dbs with
  | nil =>
    intro st S hS _
    exact ⟨by simp [estRun], by simp [estRun, hS], fun h => absurd rfl h⟩
  | cons d ds ih =>
    intro st S hS hroom
    rw [List.length_cons] at hroom
    have hlt : st.baseline_samples < BASELINE_WINDOW := by
      omega
    have hsum : fadd st.baseline_sum (F.fin d) = F.fin (S + d) := by
      rw [hS]
      rfl
    have hcons : estRun st ((d :: ds).map F.fin)
        = estRun (ingestDb st (F.fin d)) (ds.map F.fin) := rfl
    rw [hcons, ingestDb_warmup st (F.fin d) hlt]
    have hrest := ih
      { current_db := F.fin d,
        baseline := fdivN (fadd st.baseline_sum (F.fin d)) (st.baseline_samples + 1),
        baseline_samples := st.baseline_samples + 1,
        baseline_sum := fadd st.baseline_sum (F.fin d) }
      (S + d) hsum (by simpa using by omega)
    refine ⟨?_, ?_, fun _ => ?_⟩
    · rw [hrest.1]
      simp only [List.length_cons]
      omega
    · rw [hrest.2.1]
      congr 1
      rw [List.sum_cons]
      ring
    · by_cases hds : ds = []
      · subst hds
        simp only [List.map_nil, estRun, List.foldl_nil]
        show fdivN (fadd st.baseline_sum (F.fin d)) (st.baseline_samples + 1)
          = F.fin ((S + [d].sum) / (st.baseline_samples + [d].length))
        rw [hsum, fdivN_fin _ _ (Nat.succ_ne_zero _)]
        congr 1
        simp only [List.sum_cons, List.sum_nil, List.length_cons, List.length_nil]
        push_cast
        ring
      · rw [hrest.2.2 hds]
        congr 1
        simp only [List.sum_cons, List.length_cons]
        push_cast
        ring

/-- A warm-up run of all-zero loudness values keeps the baseline, the
running sum and the stored loudness at zero while counting the blocks. -/
lemma estRun_zeros (n : ℕ) (h : n ≤ BASELINE_WINDOW) :
    estRun estInit (List.replicate n (F.fin 0)) =
      { current_db := F.fin 0, baseline := F.fin 0, baseline_samples := n,
        baseline_sum := F.fin 0 } := by
  induction n with
  | zero => rfl
  | succ k ih =>
    have hk : k ≤ BASELINE_WINDOW := by omega
    have hlt : k < BASELINE_WINDOW := by omega
    rw [List.replicate_succ', estRun, List.foldl_append]
    have hfold : List.foldl ingestDb estInit (List.replicate k (F.fin 0))
        = estRun estInit (List.replicate k (F.fin 0)) := rfl
    rw [hfold, ih hk]
    simp only [List.foldl_cons, List.foldl_nil]
    rw [ingestDb_warmup _ _ hlt]
    rw [fadd_fin, fdivN_fin (0 + 0) (k + 1) (Nat.succ_ne_zero k)]
    norm_num [EstState.mk.injEq]

/-- Counterexample for claim C2 as stated: after a run of 50 blocks whose
loudness values average exactly zero (here: 50 blocks at loudness 0), the
baseline before block 51 is 0, and ingesting block 51 at loudness 50 does
NOT produce `(baseline * 49 + loudness) / 50 = 1`: the `baseline == 0.0`
reseed fires again, the baseline is first reset to 50, and the update
yields 50 — a discontinuity the claim rules out. -/
theorem claim_C2_counterexample :
    (estRun estInit (List.replicate 50 (F.fin 0))).baseline = F.fin 0
  ∧ (estRun estInit (List.replicate 50 (F.fin 0))).baseline_samples
      = BASELINE_WINDOW
  ∧ (ingestDb (estRun estInit (List.replicate 50 (F.fin 0))) (F.fin 50)).baseline
      = F.fin 50
  ∧ fdivN (fadd (fmulN (estRun estInit (List.replicate 50 (F.fin 0))).baseline
        (BASELINE_WINDOW - 1)) (F.fin 50)) BASELINE_WINDOW = F.fin 1
  ∧ F.fin (50 : ℚ) ≠ F.fin (1 : ℚ) := by
  have hz := estRun_zeros 50 (by norm_num [BASELINE_WINDOW])
  rw [hz]
  refine ⟨rfl, rfl, ?_, ?_, by norm_num⟩
  · norm_num [ingestDb, BASELINE_WINDOW, fmulN, fadd, fdivN]
  · norm_num [BASELINE_WINDOW, fmulN, fadd, fdivN]

/-- Claim C2 amended: for every run, after k ingested finite-loudness
blocks with 1 ≤ k ≤ 50 the baseline equals the arithmetic mean of the k
loudness values; and for every later block whose pre-update baseline is
NOT exactly zero, the new baseline is
`(baseline * 49 + loudness) / 50`.  (When the pre-update baseline is
exactly zero the `baseline == 0.0` reseed fires first and the update
yields the new loudness itself — see the counterexample.) -/
theorem claim_C2_amended :
    (∀ dbs : List ℚ, dbs ≠ [] → dbs.length ≤ BASELINE_WINDOW →
        (estRun estInit (dbs.map F.fin)).baseline
            = F.fin (dbs.sum / dbs.length)
        ∧ (estRun estInit (dbs.map F.fin)).baseline_samples = dbs.length)
  ∧ (∀ (st : EstState) (q : ℚ), BASELINE_WINDOW ≤ st.baseline_samples →
        st.baseline ≠ F.fin 0 →
        (ingestDb st (F.fin q)).baseline
          = fdivN (fadd (fmulN st.baseline (BASELINE_WINDOW - 1)) (F.fin q))
              BASELINE_WINDOW) := by
  constructor
  · intro dbs hne hlen
    have h := estRun_warmup dbs estInit 0 rfl (by simpa [estInit] using hlen)
    refine ⟨?_, by simpa [estInit] using h.1⟩
    have hb := h.2.2 hne
    simpa [estInit] using hb
  · intro st q hge hb
    rw [ingestDb_ewma st (F.fin q) (by omega) hb]

/-- A post-warm-up estimator state with a nonzero baseline. -/
def c2st : EstState :=
  { current_db := F.fin 0, baseline := F.fin 2, baseline_samples := 50,
    baseline_sum := F.fin 100 }

/-- Witness for the amended claim C2: one block at loudness 3 gives
baseline 3 (the mean of one value), and from a post-warm-up state with
baseline 2 a block at loudness 7 gives `(2 * 49 + 7) / 50`. -/
theorem claim_C2_witness :
    ((estRun estInit (([3] : List ℚ).map F.fin)).baseline
        = F.fin (([3] : List ℚ).sum / (([3] : List ℚ).length : ℚ))
      ∧ (estRun estInit (([3] : List ℚ).map F.fin)).baseline_samples
          = ([3] : List ℚ).length)
  ∧ (ingestDb c2st (F.fin 7)).baseline
      = fdivN (fadd (fmulN c2st.baseline (BASELINE_WINDOW - 1)) (F.fin 7))
          BASELINE_WINDOW :=
  ⟨claim_C2_amended.1 [3] (by simp) (by norm_num [BASELINE_WINDOW]),
   claim_C2_amended.2 c2st 7 (by norm_num [c2st, BASELINE_WINDOW])
     (by norm_num [c2st])⟩

/-- Claim C7: for every sample block containing at least one non-zero
sample the computed loudness `20 * log10 rms` is a finite real; for every
(nonempty) all-zero block the computed loudness is negative infinity. -/
theorem claim_C7 (data : List ℚ) :
    ((∃ s ∈ data, s ≠ 0) →
        ∃ x : ℝ, blockLoudness data = (x : EReal))
  ∧ ((data ≠ [] ∧ ∀ s ∈ data, s = 0) → blockLoudness data = (⊥ : EReal)) := by
  constructor
  · rintro ⟨s, hs, hs0⟩
    have hlen : data.length ≠ 0 := by
      intro h
      rw [List.length_eq_zero] at h
      subst h
      simp at hs
    have hms : meanSquares? data = some (sumSquares data / data.length) := by
      simp [meanSquares?, hlen]
    have hpos : 0 < sumSquares data := by
      have hle : s * s ≤ (data.map fun t => t * t).sum := by
        apply List.single_le_sum
        · intro x hx
          rcases List.mem_map.mp hx with ⟨t, ht, rfl⟩
          exact mul_self_nonneg t
        · exact List.mem_map_of_mem _ hs
      calc (0 : ℚ) < s * s := mul_self_pos.mpr hs0
        _ ≤ _ := hle
    have hmean : (0 : ℚ) < sumSquares data / data.length := by
      apply div_pos hpos
      exact_mod_cast Nat.pos_of_ne_zero hlen
    have hrpos : (0 : ℝ)
        < Real.sqrt ((sumSquares data / data.length : ℚ) : ℝ) := by
      apply Real.sqrt_pos.mpr
      exact_mod_cast hmean
    refine ⟨20 * Real.logb 10 (Real.sqrt ((sumSquares data / data.length : ℚ) : ℝ)), ?_⟩
    have hrms : rmsOf data
        = some (Real.sqrt ((sumSquares data / data.length : ℚ) : ℝ)) := by
      rw [rmsOf, hms, Option.map_some']
    simp only [blockLoudness, hrms]
    rw [if_pos hrpos]
  · rintro ⟨hne, hz⟩
    have hlen : data.length ≠ 0 := fun h => hne (List.length_eq_zero.mp h)
    have hss : sumSquares data = 0 := by
      rw [sumSquares]
      apply List.sum_eq_zero
      intro x hx
      rcases List.mem_map.mp hx with ⟨t, ht, rfl⟩
      rw [hz t ht]
      ring
    have hms : meanSquares? data = some 0 := by
      simp [meanSquares?, hlen, hss]
    simp [blockLoudness, rmsOf, hms]

/-- Witness for claim C7: a block with the single non-zero sample 1 has
finite loudness, and the all-zero block with one sample has loudness
negative infinity. -/
theorem claim_C7_witness :
    (∃ x : ℝ, blockLoudness [1] = (x : EReal))
  ∧ blockLoudness [0] = (⊥ : EReal) :=
  ⟨(claim_C7 [1]).1 ⟨1, by simp, by norm_num⟩,
   (claim_C7 [0]).2 ⟨by simp, by simp⟩⟩

/-- Once the baseline and the running sum are both negative infinity,
every further `process_audio` update with a non-NaN loudness (finite or
negative infinity) keeps them at negative infinity: the zero-baseline
reseed cannot fire, the warm-up sum stays negative infinity, and the
moving-average update maps negative infinity to negative infinity. -/
lemma estRun_negInf (dbs : List F) :
    ∀ st : EstState, st.baseline = F.negInf → st.baseline_sum = F.negInf →
      (∀ d ∈ dbs, d ≠ F.nan) →
      (estRun st dbs).baseline = F.negInf
      ∧ (estRun st dbs).baseline_sum = F.negInf := by
  induction dbs with
  | nil =>
    intro st h1 h2 _
    exact ⟨h1, h2⟩
  | cons d ds ih =>
    intro st h1 h2 hn
    have hd : d ≠ F.nan := hn d (List.mem_cons_self d ds)
    have hstep : (ingestDb st d).baseline = F.negInf
        ∧ (ingestDb st d).baseline_sum = F.negInf := by
      by_cases hlt : st.baseline_samples < BASELINE_WINDOW
      · rw [ingestDb_warmup st d hlt]
        have hsum : fadd st.baseline_sum d = F.negInf := by
          rw [h2]
          exact fadd_negInf_left d hd
        constructor
        · show fdivN (fadd st.baseline_sum d) (st.baseline_samples + 1) = F.negInf
          rw [hsum]
          exact fdivN_negInf _ (Nat.succ_ne_zero _)
        · exact hsum
      · have hb0 : st.baseline ≠ F.fin 0 := by
          rw [h1]
          simp
        rw [ingestDb_ewma st d hlt hb0]
        constructor
        · show fdivN (fadd (fmulN st.baseline (BASELINE_WINDOW - 1)) d)
              BASELINE_WINDOW = F.negInf
          rw [h1, fmulN_negInf _ (by norm_num [BASELINE_WINDOW]),
            fadd_negInf_left d hd]
          exact fdivN_negInf _ (by norm_num [BASELINE_WINDOW])
        · exact h2
    rw [estRun_cons]
    exact ih (ingestDb st d) hstep.1 hstep.2
      (fun x hx => hn x (List.mem_cons_of_mem d hx))

/-- Claim C10: ingesting an empty block stores loudness negative infinity
(the intermediate rms is NaN from the 0/0 division, modelled by the
`none` result of the mean-square computation, but the comparison
`rms > 0.0` fails for NaN so NaN is never stored); the baseline update is
not skipped: folding the negative-infinity loudness during the warm-up
window (from any state whose running sum is not NaN) drives the baseline
to negative infinity, and it stays negative infinity under every
subsequent update whose loudness is finite or negative infinity. -/
theorem claim_C10 :
    meanSquares? ([] : List ℚ) = none
  ∧ blockLoudness ([] : List ℚ) = (⊥ : EReal)
  ∧ (∀ st : EstState, st.baseline_samples < BASELINE_WINDOW →
      st.baseline_sum ≠ F.nan →
      (ingestDb st F.negInf).current_db = F.negInf
      ∧ (ingestDb st F.negInf).baseline = F.negInf
      ∧ ∀ dbs : List F, (∀ d ∈ dbs, d = F.negInf ∨ ∃ q : ℚ, d = F.fin q) →
          (estRun (ingestDb st F.negInf) dbs).baseline = F.negInf) := by
  refine ⟨by simp [meanSquares?], by simp [blockLoudness, rmsOf, meanSquares?], ?_⟩
  intro st hlt hs
  have hsum : fadd st.baseline_sum F.negInf = F.negInf :=
    fadd_negInf_right _ hs
  have hstep := ingestDb_warmup st F.negInf hlt
  have hcur : (ingestDb st F.negInf).current_db = F.negInf := by
    rw [hstep]
  have hbase : (ingestDb st F.negInf).baseline = F.negInf := by
    rw [hstep]
    show fdivN (fadd st.baseline_sum F.negInf) (st.baseline_samples + 1) = F.negInf
    rw [hsum]
    exact fdivN_negInf _ (Nat.succ_ne_zero _)
  have hbsum : (ingestDb st F.negInf).baseline_sum = F.negInf := by
    rw [hstep]
    exact hsum
  refine ⟨hcur, hbase, fun dbs hdbs => ?_⟩
  refine (estRun_negInf dbs (ingestDb st F.negInf) hbase hbsum fun d hd => ?_).1
  rcases hdbs d hd with h | ⟨q, hq⟩
  · rw [h]
    simp
  · rw [hq]
    simp

/-- Witness for claim C10: from the initial state, ingesting an empty
block (loudness negative infinity) followed by a finite block at loudness
3 and another silent block leaves the baseline at negative infinity. -/
theorem claim_C10_witness :
    (estRun (ingestDb estInit F.negInf) [F.fin 3, F.negInf]).baseline
      = F.negInf :=
  ((claim_C10.2.2 estInit (by norm_num [estInit, BASELINE_WINDOW])
      (by simp [estInit])).2.2 [F.fin 3, F.negInf]
    (by
      intro d hd
      rcases List.mem_cons.mp hd with h | h
      · exact Or.inr ⟨3, h⟩
      · rcases List.mem_cons.mp h with h2 | h2
        · exact Or.inl h2
        · exact absurd h2 (List.not_mem_nil d)))
